import Mathlib

/-!
Verification of the input-resolution engine of az-pim-cli
(`src/az_pim_cli/resolver.py`), shallowly embedded in Lean 4.

Modelling conventions:

* Python strings are Lean `String`s; all string primitives (`lower`,
  `startswith`, slicing, `in`, `isdigit`, `int(...)`) are re-implemented
  on the character list, restricted to the ASCII fragment that the
  resolver actually manipulates (Python's versions are Unicode-aware).
* Python floats are modelled as `Rat`.  The scores handled by the
  resolver (1.0, 0.95, 0.9, similarity ratios, thresholds) are plain
  decimal constants compared with `<=`, so the rational model is exact
  for the properties proved here.
* The two optional third-party similarity backends (`rapidfuzz` and the
  stdlib `difflib` fallback) are modelled by a `FuzzyEnv` record: a flag
  mirroring `HAS_RAPIDFUZZ` plus one abstract scoring function per
  backend.  The surrounding list manipulation (sorting, cutoffs, limits,
  tie-breaking) is translated faithfully from the libraries' documented
  and source behaviour.
* Console output is modelled as a list of structured `Diag` events, one
  per `console.print`-ing helper, carrying exactly the data the source
  interpolates into the message (rich markup is dropped).
* The interactive prompt (`rich.prompt.Prompt.ask`) is modelled as a
  pure function over a list of input events.
-/

namespace AzPimCli

/-! ## Python string primitives (ASCII fragment) -/

/-- ASCII decimal digit test (code points 48-57), the fragment of Python
`str.isdigit` the resolver relies on. -/
def isAsciiDigit (c : Char) : Bool := 48 ≤ c.toNat && c.toNat ≤ 57

/-- Python `str.isdigit()` on the ASCII fragment: non-empty and all digits. -/
def pyIsdigit (s : String) : Bool := !s.data.isEmpty && s.data.all isAsciiDigit

/-- Python `str.lower()` on the ASCII fragment. -/
def pyLower (s : String) : String := String.mk (s.data.map Char.toLower)

/-- Python `str.capitalize()` on the ASCII fragment: first character
upper-cased, the rest lower-cased. -/
def pyCapitalize (s : String) : String :=
  match s.data with
  | [] => ""
  | c :: cs => String.mk (c.toUpper :: cs.map Char.toLower)

/-- Bool-valued list-level check that `pre` is an initial segment of `l`. -/
def listIsInitial : List Char → List Char → Bool
  | [], _ => true
  | _ :: _, [] => false
  | c :: cs, d :: ds => c == d && listIsInitial cs ds

/-- Python `s.startswith(pre)`. -/
def pyStartsWith (s pre : String) : Bool := listIsInitial pre.data s.data

/-- Python `ch in s` for a single-character needle. -/
def pyContainsChar (s : String) (ch : Char) : Bool := s.data.any (fun c => c == ch)

/-- Python `s[n:]` (slicing by characters). -/
def pyDrop (s : String) (n : Nat) : String := String.mk (s.data.drop n)

/-- Python `len(s)` (number of characters). -/
def pyLen (s : String) : Nat := s.data.length

/-- The whitespace characters stripped by Python `int(str)` (ASCII
fragment): space, tab, newline, carriage return, vertical tab, form feed. -/
def pySpace (c : Char) : Bool :=
  c.toNat = 32 || c.toNat = 9 || c.toNat = 10 || c.toNat = 13 || c.toNat = 11 || c.toNat = 12

/-- Digit-run parser used by the model of Python `int(str)`: accepts a
non-empty run of ASCII digits with single underscores allowed between
digits (CPython's numeric-literal rule).  `lastDigit` records whether the
previous character was a digit. -/
def parseDigitsLoop : List Char → Nat → Bool → Option Nat
  | [], acc, lastDigit => if lastDigit then some acc else none
  | c :: cs, acc, lastDigit =>
    if isAsciiDigit c then parseDigitsLoop cs (acc * 10 + (c.toNat - 48)) true
    else if c = '_' && lastDigit then
      match cs with
      | d :: ds =>
        if isAsciiDigit d then parseDigitsLoop ds (acc * 10 + (d.toNat - 48)) true else none
      | [] => none
    else none

/-- Model of Python `int(str)` on the ASCII fragment: optional surrounding
whitespace, optional sign, then digits with optional single underscores
between digits.  Returns `none` where CPython raises `ValueError`. -/
def pyInt (s : String) : Option Int :=
  match ((s.data.dropWhile pySpace).reverse.dropWhile pySpace).reverse with
  | [] => none
  | c :: rest =>
    if c = '+' then (parseDigitsLoop rest 0 false).map (fun n => (n : Int))
    else if c = '-' then (parseDigitsLoop rest 0 false).map (fun n => -(n : Int))
    else (parseDigitsLoop (c :: rest) 0 false).map (fun n => (n : Int))

/-- Python code-point comparison of character lists (`str < str`). -/
def charListLt : List Char → List Char → Bool
  | [], [] => false
  | [], _ :: _ => true
  | _ :: _, [] => false
  | c :: cs, d :: ds =>
    if c.toNat < d.toNat then true
    else if d.toNat < c.toNat then false
    else charListLt cs ds

/-- Python `a < b` on strings. -/
def pyStrLt (a b : String) : Bool := charListLt a.data b.data

/-! ## Stable sorting, as performed by Python's `list.sort` / `sorted`

Python's sort is stable; with `reverse=True` (or on `heapq.nlargest`)
elements compare by the given key in descending order and equal keys keep
their original relative order.  We model this with an insertion sort in
which an existing element `y` stays in front of the inserted element `x`
exactly when `y` is strictly greater. -/

/-- Insert `x` into `l`, keeping every `y` with `gt y x` in front of it. -/
def insertByGt (gt : β → β → Bool) (x : β) : List β → List β
  | [] => [x]
  | y :: ys => if gt y x then y :: insertByGt gt x ys else x :: y :: ys

/-- Stable descending sort with respect to the strict comparison `gt`. -/
def sortByGt (gt : β → β → Bool) : List β → List β
  | [] => []
  | x :: xs => insertByGt gt x (sortByGt gt xs)

/-- Strict "greater" comparison derived from a rational-valued key. -/
def keyGt (k : β → Rat) (a b : β) : Bool := decide (k b < k a)

/-- Stable sort by a rational key, descending (Python
`list.sort(key=k, reverse=True)`). -/
def sortByKeyDesc (k : β → Rat) : List β → List β := sortByGt (keyGt k)

/-- Descending lexicographic comparison of `(score, name)` pairs, as used
by `heapq.nlargest` on the tuples built inside `difflib.get_close_matches`. -/
def pyPairGt (a b : Rat × String) : Bool :=
  decide (b.1 < a.1) || (decide (a.1 = b.1) && pyStrLt b.2 a.2)

/-- Division of a rational by 100 (`score / 100.0`), written in a
kernel-computable normal form; `div100_eq` below identifies it with
`x / 100`. -/
def div100 (x : Rat) : Rat := mkRat x.num (x.den * 100)

/-- Subtraction of rationals (`now - timestamp`), written in a
kernel-computable normal form; `ratSub_eq` below identifies it with
`a - b`. -/
def ratSub (a b : Rat) : Rat := mkRat (a.num * b.den - b.num * a.den) (a.den * b.den)

/-! ## Data model (`resolver.py`) -/

/-- Matching strategy for input resolution (`MatchStrategy`).  Evaluated
in the order `exact`, `caseInsensitive`, `prefixOf`, `fuzzy`. -/
inductive MatchStrategy where
  | exact
  | caseInsensitive
  | prefixOf
  | fuzzy
deriving DecidableEq, Repr

/-- A matched item with metadata (`Match`). -/
structure Match (α : Type) where
  item : α
  name : String
  strategy : MatchStrategy
  score : Rat
deriving Repr, DecidableEq

/-- Cached data with TTL (`CacheEntry`).  Timestamps are rationals
(`time.time()` readings). -/
structure CacheEntry (α : Type) where
  data : α
  timestamp : Rat
deriving Repr, DecidableEq

/-- The resolver's `_cache` dict: an association list with unique keys in
insertion order, exactly the observable structure of a Python dict. -/
abbrev Cache (α : Type) := List (String × CacheEntry α)

/-- Configuration fixed at `InputResolver.__init__`. -/
structure ResolverCfg where
  fuzzy_enabled : Bool
  fuzzy_threshold : Rat
  cache_ttl_seconds : Rat
  is_tty : Bool

/-- Environment describing which optional similarity backend is
installed (`HAS_RAPIDFUZZ`) and the two abstract scoring functions:
`fuzzScore a b` models `rapidfuzz.fuzz.ratio(a, b)` (a value in 0..100),
`smScore a b` models `difflib.SequenceMatcher(None, a, b).ratio()`
(a value in 0..1). -/
structure FuzzyEnv where
  hasRapidfuzz : Bool
  fuzzScore : String → String → Rat
  smScore : String → String → Rat

/-- One structured console-output event.  Each constructor corresponds to
one printing helper of `InputResolver`, carrying the data interpolated
into the printed message (rich markup dropped). -/
inductive Diag where
  | error (msg : String)
  | matchInfo (context : String) (name : String) (strategy : MatchStrategy) (score : Rat)
  | notFound (context : String) (input : String) (suggestions : List String)
  | multipleMatches (context : String) (input : String) (shown : List String)
      (overflow : Option Nat)
  | promptList (context : String) (names : List String)
  | cancelled
deriving DecidableEq, Repr

/-- Events on the interactive input stream: a typed line, or a keyboard
interrupt; the end of the list is end-of-input (`EOFError`). -/
inductive InEvent where
  | line (s : String)
  | interrupt
deriving DecidableEq, Repr

/-- Modelled from the `rich` library: `Prompt.ask(choices=..., default=...)`.
An empty line returns the default, a line in `choices` is returned, any
other line causes a re-prompt; an interrupt or end-of-input raises
(`KeyboardInterrupt` / `EOFError`), modelled as `none`. -/
def promptAsk (choices : List String) (dflt : String) : List InEvent → Option String
  | [] => none
  | InEvent.interrupt :: _ => none
  | InEvent.line s :: rest =>
    if s = "" then some dflt
    else if choices.contains s then some s
    else promptAsk choices dflt rest

/-! ## Match engine (`InputResolver._find_matches`, `_fuzzy_match`) -/

/-- The dict `name_to_candidate = {name: c for c, name in candidate_names}`:
on duplicate names the last candidate wins, so lookup searches the
reversed list. -/
def name_to_candidate (candidate_names : List (α × String)) (name : String) : Option α :=
  (candidate_names.reverse.find? (fun p => p.2 == name)).map (fun p => p.1)

/-- Modelled from `rapidfuzz.process.extract(query, names, scorer=fuzz.ratio,
limit=limit)`: every choice scored, sorted by score descending with ties
in first-seen order, truncated to `limit` entries. -/
def rfExtract (fuzzScore : String → String → Rat) (query : String)
    (names : List String) (limit : Option Nat) : List (String × Rat) :=
  match limit with
  | none => sortByKeyDesc (fun p => p.2) (names.map (fun n => (n, fuzzScore query n)))
  | some k =>
    (sortByKeyDesc (fun p => p.2) (names.map (fun n => (n, fuzzScore query n)))).take k

/-- Modelled from `difflib.get_close_matches(word, possibilities, n, cutoff)`:
keep possibilities whose `SequenceMatcher(None, x, word).ratio()` reaches
the cutoff (the quick-ratio upper bounds only skip sub-cutoff entries) and
return the `n` largest `(ratio, x)` tuples under `heapq.nlargest`'s
descending tuple order — ties are broken by the *name*, descending, not by
original position. -/
def get_close_matches (smScore : String → String → Rat) (word : String)
    (possibilities : List String) (n : Nat) (cutoff : Rat) : List String :=
  ((sortByGt pyPairGt
      ((possibilities.filter (fun x => decide (cutoff ≤ smScore x word))).map
        (fun x => (smScore x word, x)))).take n).map (fun p => p.2)

/-- `InputResolver._fuzzy_match`: branch on the installed backend, build
fuzzy `Match`es through the `name_to_candidate` dict, then
`matches.sort(key=score, reverse=True)`. -/
def fuzzy_match (env : FuzzyEnv) (threshold : Rat) (user_input : String)
    (candidate_names : List (α × String)) : List (Match α) :=
  sortByKeyDesc (fun m => m.score)
    (if env.hasRapidfuzz then
      (rfExtract env.fuzzScore user_input (candidate_names.map (fun p => p.2))
          none).filterMap (fun r =>
        if decide (threshold ≤ div100 r.2) then
          (name_to_candidate candidate_names r.1).map
            (fun c => Match.mk c r.1 MatchStrategy.fuzzy (div100 r.2))
        else none)
    else
      (get_close_matches env.smScore user_input (candidate_names.map (fun p => p.2))
          10 threshold).filterMap (fun n =>
        (name_to_candidate candidate_names n).map
          (fun c => Match.mk c n MatchStrategy.fuzzy (env.smScore user_input n))))

/-- Tier 1 of `_find_matches`: exact, case-sensitive name equality, score 1.0. -/
def exact_matches_of (user_input : String) (candidate_names : List (α × String)) :
    List (Match α) :=
  (candidate_names.filter (fun p => p.2 == user_input)).map
    (fun p => Match.mk p.1 p.2 MatchStrategy.exact 1)

/-- Tier 2 of `_find_matches`: case-insensitive equality, score 0.95. -/
def ci_matches_of (user_input : String) (candidate_names : List (α × String)) :
    List (Match α) :=
  (candidate_names.filter (fun p => pyLower p.2 == pyLower user_input)).map
    (fun p => Match.mk p.1 p.2 MatchStrategy.caseInsensitive (mkRat 95 100))

/-- Tier 3 of `_find_matches`: case-insensitive prefix, score 0.9. -/
def pm_matches_of (user_input : String) (candidate_names : List (α × String)) :
    List (Match α) :=
  (candidate_names.filter (fun p => pyStartsWith (pyLower p.2) (pyLower user_input))).map
    (fun p => Match.mk p.1 p.2 MatchStrategy.prefixOf (mkRat 9 10))

/-- The list `candidate_names = [(c, name_extractor(c)) for c in candidates]`
computed at the top of `_find_matches` ("extract names once"). -/
def candidate_names_of (candidates : List α) (ne : α → String) : List (α × String) :=
  candidates.map (fun c => (c, ne c))

/-- `InputResolver._find_matches`: the strict short-circuit cascade of the
four tiers, fuzzy only when enabled. -/
def find_matches (env : FuzzyEnv) (cfg : ResolverCfg) (user_input : String)
    (candidates : List α) (ne : α → String) : List (Match α) :=
  if !(exact_matches_of user_input (candidate_names_of candidates ne)).isEmpty then
    exact_matches_of user_input (candidate_names_of candidates ne)
  else if !(ci_matches_of user_input (candidate_names_of candidates ne)).isEmpty then
    ci_matches_of user_input (candidate_names_of candidates ne)
  else if !(pm_matches_of user_input (candidate_names_of candidates ne)).isEmpty then
    pm_matches_of user_input (candidate_names_of candidates ne)
  else if cfg.fuzzy_enabled then
    fuzzy_match env cfg.fuzzy_threshold user_input (candidate_names_of candidates ne)
  else []

/-- `InputResolver._get_suggestions`: with rapidfuzz, the `max_suggestions`
best-scoring names with *no* score cutoff; with the difflib fallback,
`get_close_matches` with the hard-coded lower cutoff 0.4. -/
def get_suggestions (env : FuzzyEnv) (user_input : String) (candidates : List α)
    (ne : α → String) (max_suggestions : Nat) : List String :=
  if env.hasRapidfuzz then
    (rfExtract env.fuzzScore user_input (candidates.map ne) (some max_suggestions)).map
      (fun p => p.1)
  else
    get_close_matches env.smScore user_input (candidates.map ne) max_suggestions (mkRat 2 5)

/-! ## Disambiguation (`_interactive_select`, `_handle_multiple_matches`)
and the facade (`resolve`) -/

/-- `InputResolver._interactive_select`: print the numbered list, run
`Prompt.ask` restricted to the choices `1..len(matches)` with default
`"1"`, return `matches[int(choice) - 1].item`; an interrupt or
end-of-input is caught and reported as a cancelled selection. -/
def interactive_select (stdin : List InEvent) (ms : List (Match α))
    (context : String) : Option α × List Diag :=
  let choices := (List.range ms.length).map (fun i => toString (i + 1))
  match promptAsk choices "1" stdin with
  | some choice =>
    ((ms.get? (((pyInt choice).getD 0) - 1).toNat).map (fun m => m.item),
     [Diag.promptList context (ms.map (fun m => m.name))])
  | none =>
    (none, [Diag.promptList context (ms.map (fun m => m.name)), Diag.cancelled])

/-- `InputResolver._handle_multiple_matches`: interactive selection in a
TTY when allowed, otherwise the "multiple matches" error listing the
first 5 names plus an overflow count when more matched. -/
def handle_multiple_matches (cfg : ResolverCfg) (stdin : List InEvent)
    (ms : List (Match α)) (user_input context : String)
    (allow_interactive : Bool) : Option α × List Diag :=
  if cfg.is_tty && allow_interactive then interactive_select stdin ms context
  else
    (none,
     [Diag.multipleMatches context user_input ((ms.take 5).map (fun m => m.name))
        (if 5 < ms.length then some (ms.length - 5) else none)])

/-- `InputResolver.resolve`: guard clauses, then the match engine, then
zero/one/many dispatch.  (The `cache_key` parameter of the source is
accepted but never used inside `resolve`, so it is omitted here.) -/
def resolve (env : FuzzyEnv) (cfg : ResolverCfg) (stdin : List InEvent)
    (user_input : String) (candidates : List α) (ne : α → String)
    (context : String) (allow_interactive : Bool) : Option α × List Diag :=
  if candidates.isEmpty then
    (none, [Diag.error ("No " ++ context ++ "s available to match against")])
  else if user_input = "" then
    (none, [Diag.error (pyCapitalize context ++ " input is required")])
  else
    match find_matches env cfg user_input candidates ne with
    | [] =>
      (none, [Diag.notFound context user_input
        (get_suggestions env user_input candidates ne 3)])
    | [m] =>
      (some m.item,
       if m.strategy = MatchStrategy.exact then []
       else [Diag.matchInfo context m.name m.strategy m.score])
    | ms => handle_multiple_matches cfg stdin ms user_input context allow_interactive

/-! ## Candidate cache (`get_cached`, `set_cache`, `clear_cache`) -/

/-- Dict lookup `self._cache[key]` / `key in self._cache`. -/
def cacheLookup (cache : Cache α) (key : String) : Option (CacheEntry α) :=
  (cache.find? (fun p => p.1 == key)).map (fun p => p.2)

/-- `del self._cache[key]` (dict keys are unique, so removing every
occurrence from the association list is the same operation). -/
def cacheErase (cache : Cache α) (key : String) : Cache α :=
  cache.filter (fun p => !(p.1 == key))

/-- Dict assignment `self._cache[key] = entry`: replace in place, or
append when the key is new. -/
def cacheInsert (cache : Cache α) (key : String) (entry : CacheEntry α) : Cache α :=
  match cache with
  | [] => [(key, entry)]
  | (k, e) :: rest =>
    if k == key then (k, entry) :: rest else (k, e) :: cacheInsert rest key entry

/-- `InputResolver.get_cached`: the data when an entry exists and is
within TTL; otherwise `none`, deleting a stale entry.  Returns the result
together with the (possibly pruned) cache state; `now` is the
`time.time()` reading. -/
def get_cached (cache : Cache α) (ttl : Rat) (now : Rat) (key : String) :
    Option α × Cache α :=
  match cacheLookup cache key with
  | none => (none, cache)
  | some e =>
    if ttl < ratSub now e.timestamp then (none, cacheErase cache key)
    else (some e.data, cache)

/-- `InputResolver.set_cache`. -/
def set_cache (cache : Cache α) (now : Rat) (key : String) (data : α) : Cache α :=
  cacheInsert cache key (CacheEntry.mk data now)

/-- `InputResolver.clear_cache`. -/
def clear_cache (_cache : Cache α) : Cache α := []

/-! ## Helper functions (`resolve_role`, `resolve_scope`) -/

/-- The fetch-through-cache step shared by both helpers: return the cached
list when present, otherwise the (pre-materialised) fetch result, storing
it; the flag records whether the fetch function was invoked. -/
def cached_or_fetched (cfg : ResolverCfg) (cache : Cache (List ρ)) (now : Rat)
    (key : String) (fetched_data : List ρ) : List ρ × Cache (List ρ) × Bool :=
  match get_cached cache cfg.cache_ttl_seconds now key with
  | (some rs, c2) => (rs, c2, false)
  | (none, c2) => (fetched_data, set_cache c2 now key fetched_data, true)

/-- Outcome of `resolve_role`: the resolved role, the console events, the
cache state afterwards, and whether `fetch_roles_fn` was called. -/
structure RoleResolution (ρ : Type) where
  result : Option ρ
  diags : List Diag
  cache : Cache (List ρ)
  fetched : Bool
deriving Repr

/-- The number-detection step of `resolve_role`: `int(role_input[1:])`
after a leading `"#"` (any parse failure is swallowed), else
`int(role_input)` when `role_input.isdigit()`. -/
def role_number_of (role_input : String) : Option Int :=
  if pyStartsWith role_input "#" then pyInt (pyDrop role_input 1)
  else if pyIsdigit role_input then pyInt role_input
  else none

/-- The regex `^#?\d+$` of the specification (ASCII digits). -/
def posPattern (s : String) : Bool :=
  if pyStartsWith s "#" then pyIsdigit (pyDrop s 1) else pyIsdigit s

/-- `resolve_role`: fetch-through-cache under key `"roles_" + scope`, then
positional addressing for numeric/`#N` inputs (1-indexed, with an
"Invalid role number" diagnostic out of range), else name resolution via
`resolve` with context `"role"`. -/
def resolve_role (env : FuzzyEnv) (cfg : ResolverCfg) (stdin : List InEvent)
    (cache : Cache (List ρ)) (now : Rat) (role_input : String) (scope : String)
    (fetch_roles : List ρ) (ne : ρ → String) : RoleResolution ρ :=
  let rcf := cached_or_fetched cfg cache now ("roles_" ++ scope) fetch_roles
  let roles := rcf.1
  match role_number_of role_input with
  | some n =>
    if 1 ≤ n ∧ n ≤ (roles.length : Int) then
      RoleResolution.mk (roles.get? (n - 1).toNat) [] rcf.2.1 rcf.2.2
    else
      RoleResolution.mk none
        [Diag.error ("Invalid role number " ++ toString n ++ " (must be 1-" ++
          toString roles.length ++ ")")]
        rcf.2.1 rcf.2.2
  | none =>
    let r := resolve env cfg stdin role_input roles ne "role" true
    RoleResolution.mk r.1 r.2 rcf.2.1 rcf.2.2

/-- The list bound to the local variable `roles` inside `resolve_role`
(cache hit, or the fetched list). -/
def roles_used (cfg : ResolverCfg) (cache : Cache (List ρ)) (now : Rat)
    (scope : String) (fetch_roles : List ρ) : List ρ :=
  (cached_or_fetched cfg cache now ("roles_" ++ scope) fetch_roles).1

/-- Candidate values handled by `resolve_scope`'s `extract_scope_name`:
plain strings, or dicts with string fields (the shapes the scope fetchers
produce). -/
inductive ScopeVal where
  | str (s : String)
  | dict (entries : List (String × String))
deriving DecidableEq, Repr

/-- `dict.get(key)` on a string-valued dict. -/
def dictGet (es : List (String × String)) (k : String) : Option String :=
  (es.find? (fun p => p.1 == k)).map (fun p => p.2)

/-- Concatenate with a separator (`str.join`). -/
def joinWith (sep : String) : List String → String
  | [] => ""
  | [s] => s
  | s :: rest => s ++ sep ++ joinWith sep rest

/-- Python `str(scope)` for the dict case (`repr` of a string-valued
dict). -/
def pyStrScope : ScopeVal → String
  | ScopeVal.str s => s
  | ScopeVal.dict es =>
    "\x7b" ++
      joinWith ", " (es.map (fun p => "'" ++ p.1 ++ "': '" ++ p.2 ++ "'")) ++ "\x7d"

/-- The local `extract_scope_name` of `resolve_scope`:
`scope.get("name", scope.get("id", str(scope)))` for dicts, identity for
strings. -/
def extract_scope_name (v : ScopeVal) : String :=
  match v with
  | ScopeVal.str s => s
  | ScopeVal.dict es => (dictGet es "name").getD ((dictGet es "id").getD (pyStrScope v))

/-- Python truthiness of an optional string (`if subscription_id:`). -/
def pyTruthyStr : Option String → Bool
  | none => false
  | some s => !(s == "")

/-- Python truthiness of a candidate (`if resolved:`): empty strings and
empty dicts are falsy. -/
def pyTruthyScope : ScopeVal → Bool
  | ScopeVal.str s => !(s == "")
  | ScopeVal.dict es => !es.isEmpty

/-- Outcome of `resolve_scope`. -/
structure ScopeResolution where
  result : Option String
  diags : List Diag
  cache : Cache (List ScopeVal)
  fetched : Bool
deriving Repr

/-- `resolve_scope`: full paths pass through, `"directory"`/`"/"` map to
the directory scope `"/"`, a slash-free input with a subscription context
and no fetch function becomes a subscription (36 characters containing a
dash) or resource-group path, and otherwise the fetch-and-match flow runs
when a fetch function is available.  `fetch_scopes = none` models
`fetch_scopes_fn=None`; `some l` a fetch function that would return `l`. -/
def resolve_scope (env : FuzzyEnv) (cfg : ResolverCfg) (stdin : List InEvent)
    (cache : Cache (List ScopeVal)) (now : Rat) (scope_input : String)
    (subscription_id : Option String) (fetch_scopes : Option (List ScopeVal)) :
    ScopeResolution :=
  if pyStartsWith scope_input "/subscriptions/" || pyStartsWith scope_input "/providers/" then
    ScopeResolution.mk (some scope_input) [] cache false
  else if pyLower scope_input == "directory" || pyLower scope_input == "/" then
    ScopeResolution.mk (some "/") [] cache false
  else if pyTruthyStr subscription_id && fetch_scopes.isNone
      && !pyContainsChar scope_input '/' then
    if pyLen scope_input == 36 && pyContainsChar scope_input '-' then
      ScopeResolution.mk (some ("/subscriptions/" ++ scope_input)) [] cache false
    else
      ScopeResolution.mk
        (some ("/subscriptions/" ++ subscription_id.getD "" ++ "/resourceGroups/" ++
          scope_input))
        [] cache false
  else
    match fetch_scopes with
    | none => ScopeResolution.mk none [] cache false
    | some fetched_scopes =>
      let cache_key :=
        "scopes_" ++ (if pyTruthyStr subscription_id then subscription_id.getD "" else "all")
      let rcf := cached_or_fetched cfg cache now cache_key fetched_scopes
      let r := resolve env cfg stdin scope_input rcf.1 extract_scope_name "scope" true
      match r.1 with
      | some v =>
        ScopeResolution.mk
          (if pyTruthyScope v then some (extract_scope_name v) else none)
          r.2 rcf.2.1 rcf.2.2
      | none => ScopeResolution.mk none r.2 rcf.2.1 rcf.2.2

/-! ## Concrete instantiations used in witnesses and counterexamples -/

/-- A rapidfuzz environment whose scorer rates every pair 90 (similarity
0.9, above the default 0.8 threshold). -/
def envRapid90 : FuzzyEnv := FuzzyEnv.mk true (fun _ _ => 90) (fun _ _ => mkRat 9 10)

/-- A rapidfuzz environment whose scorer rates every pair 0, the value
`fuzz.ratio` yields for strings with no common characters. -/
def envRapid0 : FuzzyEnv := FuzzyEnv.mk true (fun _ _ => 0) (fun _ _ => 0)

/-- A difflib-fallback environment whose sequence matcher rates every
pair 0.9. -/
def envDifflib90 : FuzzyEnv := FuzzyEnv.mk false (fun _ _ => 0) (fun _ _ => mkRat 9 10)

/-- A difflib-fallback environment whose sequence matcher rates every
pair 0.5 (above the 0.4 suggestion cutoff, below the 0.8 threshold). -/
def envDifflib50 : FuzzyEnv := FuzzyEnv.mk false (fun _ _ => 0) (fun _ _ => mkRat 1 2)

/-- The default resolver configuration in a TTY. -/
def cfgTty : ResolverCfg := ResolverCfg.mk true (mkRat 8 10) 300 true

/-- The default resolver configuration outside a TTY. -/
def cfgNonTty : ResolverCfg := ResolverCfg.mk true (mkRat 8 10) 300 false

/-- Specification-side description of the fuzzy tier, following spec.md
§4.2: score every candidate name, keep the scores at or above the
threshold in original candidate order, and sort by score descending with
stable ties.  Stated on `(name, score)` pairs, to be compared with the
source-translated `fuzzy_match`. -/
def fuzzy_tier_spec (sim : String → Rat) (threshold : Rat)
    (names : List String) : List (String × Rat) :=
  sortByKeyDesc (fun p => p.2)
    ((names.map (fun n => (n, sim n))).filter (fun q => decide (threshold ≤ q.2)))

/-! ## General lemmas: the computable rational forms, and stable sorting -/

theorem div100_eq (x : Rat) : div100 x = x / 100 := by
  rw [div100, Rat.mkRat_eq_div]
  push_cast
  rw [← div_div, Rat.num_div_den]

theorem ratSub_eq (a b : Rat) : ratSub a b = a - b := by
  have ha : ((a.den : Rat)) ≠ 0 := Nat.cast_ne_zero.mpr a.den_nz
  have hb : ((b.den : Rat)) ≠ 0 := Nat.cast_ne_zero.mpr b.den_nz
  rw [ratSub, Rat.mkRat_eq_div]
  push_cast
  conv_rhs => rw [← Rat.num_div_den a, ← Rat.num_div_den b]
  rw [div_sub_div _ _ ha hb]
  ring_nf

theorem div100_lt_div100 {x y : Rat} : div100 x < div100 y ↔ x < y := by
  rw [div100_eq, div100_eq]
  exact div_lt_div_iff_of_pos_right (by norm_num)

theorem mem_insertByGt {gt : β → β → Bool} {x a : β} {l : List β} :
    a ∈ insertByGt gt x l ↔ a = x ∨ a ∈ l := by
  induction l with
  | nil => simp [insertByGt]
  | cons y ys ih =>
    simp only [insertByGt]
    split
    · simp only [List.mem_cons, ih]
      tauto
    · simp only [List.mem_cons]

theorem mem_sortByGt {gt : β → β → Bool} {a : β} {l : List β} :
    a ∈ sortByGt gt l ↔ a ∈ l := by
  induction l with
  | nil => simp [sortByGt]
  | cons x xs ih => simp [sortByGt, mem_insertByGt, ih]

theorem map_insertByGt (f : β → γ) (gt : β → β → Bool) (gt' : γ → γ → Bool)
    (hc : ∀ a b, gt a b = gt' (f a) (f b)) (x : β) (l : List β) :
    (insertByGt gt x l).map f = insertByGt gt' (f x) (l.map f) := by
  induction l with
  | nil => simp [insertByGt]
  | cons y ys ih =>
    simp only [insertByGt, List.map_cons, ← hc, apply_ite (List.map f), List.map_cons, ih]

theorem map_sortByGt (f : β → γ) (gt : β → β → Bool) (gt' : γ → γ → Bool)
    (hc : ∀ a b, gt a b = gt' (f a) (f b)) (l : List β) :
    (sortByGt gt l).map f = sortByGt gt' (l.map f) := by
  induction l with
  | nil => simp [sortByGt]
  | cons x xs ih => simp [sortByGt, map_insertByGt f gt gt' hc, ih]

theorem pairwise_insertByGt (k : β → Rat) {x : β} {l : List β}
    (h : l.Pairwise (fun a b => k b ≤ k a)) :
    (insertByGt (keyGt k) x l).Pairwise (fun a b => k b ≤ k a) := by
  induction l with
  | nil => simp [insertByGt]
  | cons y ys ih =>
    rw [List.pairwise_cons] at h
    by_cases hxy : keyGt k y x = true
    · have hky : k x < k y := by simpa [keyGt] using hxy
      simp only [insertByGt, hxy, if_true]
      rw [List.pairwise_cons]
      refine ⟨?_, ih h.2⟩
      intro z hz
      rcases mem_insertByGt.mp hz with rfl | hz
      · exact le_of_lt hky
      · exact h.1 z hz
    · have hky : ¬ k x < k y := by simpa [keyGt] using hxy
      simp only [insertByGt, hxy, Bool.false_eq_true, if_false]
      rw [List.pairwise_cons]
      refine ⟨?_, List.pairwise_cons.mpr h⟩
      intro z hz
      rcases List.mem_cons.mp hz with rfl | hz
      · exact not_lt.mp hky
      · exact le_trans (h.1 z hz) (not_lt.mp hky)

theorem pairwise_sortByKeyDesc (k : β → Rat) (l : List β) :
    (sortByKeyDesc k l).Pairwise (fun a b => k b ≤ k a) := by
  induction l with
  | nil => simp [sortByKeyDesc, sortByGt]
  | cons x xs ih => exact pairwise_insertByGt k ih

theorem insertByGt_eq_cons (k : β → Rat) {x : β} {l : List β}
    (h : ∀ z ∈ l, ¬ k x < k z) : insertByGt (keyGt k) x l = x :: l := by
  cases l with
  | nil => rfl
  | cons y ys =>
    have hf : keyGt k y x = false := by
      simp only [keyGt, decide_eq_false_iff_not]
      exact h y (List.mem_cons_self y ys)
    simp [insertByGt, hf]

theorem sortByKeyDesc_eq_self (k : β → Rat) {l : List β}
    (h : l.Pairwise (fun a b => k b ≤ k a)) : sortByKeyDesc k l = l := by
  induction l with
  | nil => rfl
  | cons x xs ih =>
    rw [List.pairwise_cons] at h
    have hs : sortByKeyDesc k xs = xs := ih h.2
    show insertByGt (keyGt k) x (sortByGt (keyGt k) xs) = x :: xs
    rw [show sortByGt (keyGt k) xs = sortByKeyDesc k xs from rfl, hs]
    exact insertByGt_eq_cons k (fun z hz => not_lt.mpr (h.1 z hz))

theorem filter_insertByGt (k : β → Rat) (p : β → Bool) {x : β} {l : List β}
    (h : l.Pairwise (fun a b => k b ≤ k a)) :
    (insertByGt (keyGt k) x l).filter p =
      if p x then insertByGt (keyGt k) x (l.filter p) else l.filter p := by
  induction l with
  | nil =>
    by_cases hx : p x = true <;> simp [insertByGt, hx]
  | cons y ys ih =>
    rw [List.pairwise_cons] at h
    by_cases hxy : keyGt k y x = true
    · simp only [insertByGt, hxy, if_true]
      by_cases hy : p y = true
      · simp only [List.filter_cons, hy, if_true, ih h.2]
        by_cases hx : p x = true
        · simp only [hx, if_true, insertByGt, hxy]
        · simp [hx]
      · simp only [List.filter_cons, hy, Bool.false_eq_true, if_false, ih h.2]
    · have hky : ¬ k x < k y := by simpa [keyGt] using hxy
      simp only [insertByGt, hxy, Bool.false_eq_true, if_false]
      by_cases hx : p x = true
      · simp only [List.filter_cons, hx, if_true]
        by_cases hy : p y = true
        · simp only [hy, if_true]
          rw [insertByGt, show keyGt k y x = false from by simpa [keyGt] using hky]
          simp
        · simp only [hy, Bool.false_eq_true, if_false]
          rw [insertByGt_eq_cons k]
          intro z hz
          have hzy : z ∈ ys := List.mem_of_mem_filter hz
          exact fun hlt =>
            absurd (lt_of_lt_of_le hlt (le_trans (h.1 z hzy) (not_lt.mp hky))) (lt_irrefl _)
      · simp [List.filter_cons, hx]

theorem filter_sortByKeyDesc (k : β → Rat) (p : β → Bool) (l : List β) :
    (sortByKeyDesc k l).filter p = sortByKeyDesc k (l.filter p) := by
  induction l with
  | nil => rfl
  | cons x xs ih =>
    show (insertByGt (keyGt k) x (sortByKeyDesc k xs)).filter p = _
    rw [filter_insertByGt k p (pairwise_sortByKeyDesc k xs), ih]
    by_cases hx : p x = true
    · simp only [hx, if_true, List.filter_cons]
      rfl
    · simp only [hx, Bool.false_eq_true, if_false, List.filter_cons]

theorem sortByKeyDesc_idem (k : β → Rat) (l : List β) :
    sortByKeyDesc k (sortByKeyDesc k l) = sortByKeyDesc k l :=
  sortByKeyDesc_eq_self k (pairwise_sortByKeyDesc k l)

/-! ## Lemmas about the match tiers -/

theorem name_to_candidate_mem {α : Type} {cns : List (α × String)} {name : String} {c : α}
    (h : name_to_candidate cns name = some c) : (c, name) ∈ cns := by
  unfold name_to_candidate at h
  rcases Option.map_eq_some'.mp h with ⟨p, hfind, hp⟩
  have hmem : p ∈ cns.reverse := List.mem_of_find?_eq_some hfind
  have hpn : p.2 = name := by simpa using List.find?_some hfind
  have : p = (c, name) := by
    cases p
    simp_all
  rw [← this]
  exact List.mem_reverse.mp hmem

theorem name_to_candidate_isSome {α : Type} {cns : List (α × String)} {name : String}
    (h : ∃ p ∈ cns, p.2 = name) : (name_to_candidate cns name).isSome := by
  unfold name_to_candidate
  rw [Option.isSome_map']
  rw [List.find?_isSome]
  obtain ⟨p, hp, hpn⟩ := h
  exact ⟨p, List.mem_reverse.mpr hp, by simpa using hpn⟩

theorem exact_matches_spec {α : Type} {ui : String} {cns : List (α × String)} {m : Match α}
    (h : m ∈ exact_matches_of ui cns) :
    m.strategy = MatchStrategy.exact ∧ (m.item, m.name) ∈ cns ∧ m.name = ui := by
  rcases List.mem_map.mp h with ⟨p, hp, rfl⟩
  have := List.mem_filter.mp hp
  refine ⟨rfl, ?_, by simpa using this.2⟩
  simpa using this.1

theorem ci_matches_spec {α : Type} {ui : String} {cns : List (α × String)} {m : Match α}
    (h : m ∈ ci_matches_of ui cns) :
    m.strategy = MatchStrategy.caseInsensitive ∧ (m.item, m.name) ∈ cns := by
  rcases List.mem_map.mp h with ⟨p, hp, rfl⟩
  exact ⟨rfl, by simpa using (List.mem_filter.mp hp).1⟩

theorem pm_matches_spec {α : Type} {ui : String} {cns : List (α × String)} {m : Match α}
    (h : m ∈ pm_matches_of ui cns) :
    m.strategy = MatchStrategy.prefixOf ∧ (m.item, m.name) ∈ cns := by
  rcases List.mem_map.mp h with ⟨p, hp, rfl⟩
  exact ⟨rfl, by simpa using (List.mem_filter.mp hp).1⟩

theorem fuzzy_match_spec {α : Type} {env : FuzzyEnv} {θ : Rat} {ui : String}
    {cns : List (α × String)} {m : Match α} (h : m ∈ fuzzy_match env θ ui cns) :
    m.strategy = MatchStrategy.fuzzy ∧ (m.item, m.name) ∈ cns := by
  unfold fuzzy_match at h
  have h2 := mem_sortByGt.mp h
  by_cases hrf : env.hasRapidfuzz = true
  · rw [if_pos hrf] at h2
    rcases List.mem_filterMap.mp h2 with ⟨r, _, hr⟩
    by_cases hθ2 : decide ((θ : Rat) ≤ div100 r.2) = true
    · rw [if_pos hθ2] at hr
      rcases Option.map_eq_some'.mp hr with ⟨c, hc, hm⟩
      subst hm
      exact ⟨rfl, name_to_candidate_mem hc⟩
    · rw [if_neg hθ2] at hr
      cases hr
  · rw [if_neg hrf] at h2
    rcases List.mem_filterMap.mp h2 with ⟨n, _, hr⟩
    rcases Option.map_eq_some'.mp hr with ⟨c, hc, hm⟩
    subst hm
    exact ⟨rfl, name_to_candidate_mem hc⟩

theorem find_matches_uniform {α : Type} (env : FuzzyEnv) (cfg : ResolverCfg) (ui : String)
    (cands : List α) (ne : α → String) :
    ∃ st, ∀ m ∈ find_matches env cfg ui cands ne, m.strategy = st := by
  unfold find_matches
  split
  · exact ⟨MatchStrategy.exact, fun m hm => (exact_matches_spec hm).1⟩
  · split
    · exact ⟨MatchStrategy.caseInsensitive, fun m hm => (ci_matches_spec hm).1⟩
    · split
      · exact ⟨MatchStrategy.prefixOf, fun m hm => (pm_matches_spec hm).1⟩
      · split
        · exact ⟨MatchStrategy.fuzzy, fun m hm => (fuzzy_match_spec hm).1⟩
        · exact ⟨MatchStrategy.exact, by simp⟩

theorem find_matches_item_name {α : Type} (env : FuzzyEnv) (cfg : ResolverCfg) (ui : String)
    (cands : List α) (ne : α → String) :
    ∀ m ∈ find_matches env cfg ui cands ne,
      m.item ∈ cands ∧ ne m.item = m.name := by
  have base : ∀ m : Match α, (m.item, m.name) ∈ candidate_names_of cands ne →
      m.item ∈ cands ∧ ne m.item = m.name := by
    intro m hm
    rcases List.mem_map.mp hm with ⟨c, hc, hcm⟩
    have h1 : c = m.item := congrArg Prod.fst hcm
    have h2 : ne c = m.name := congrArg Prod.snd hcm
    subst h1
    exact ⟨hc, h2⟩
  intro m hm
  unfold find_matches at hm
  split at hm
  · exact base m (exact_matches_spec hm).2.1
  · split at hm
    · exact base m (ci_matches_spec hm).2
    · split at hm
      · exact base m (pm_matches_spec hm).2
      · split at hm
        · exact base m (fuzzy_match_spec hm).2
        · cases hm

/-! ## Claims C1, C2, C3 -/

theorem find_matches_exact_of_exists {α : Type} (env : FuzzyEnv) (cfg : ResolverCfg)
    (ui : String) (cands : List α) (ne : α → String) (h : ∃ c ∈ cands, ne c = ui) :
    find_matches env cfg ui cands ne
      = exact_matches_of ui (candidate_names_of cands ne) := by
  have hmem : Match.mk (h.choose) (ne h.choose) MatchStrategy.exact 1
      ∈ exact_matches_of ui (candidate_names_of cands ne) := by
    apply List.mem_map.mpr
    refine ⟨(h.choose, ne h.choose), ?_, rfl⟩
    apply List.mem_filter.mpr
    refine ⟨List.mem_map.mpr ⟨h.choose, h.choose_spec.1, rfl⟩, ?_⟩
    simpa using h.choose_spec.2
  have hne : (!(exact_matches_of ui (candidate_names_of cands ne)).isEmpty) = true := by
    cases hl : exact_matches_of ui (candidate_names_of cands ne)
    · rw [hl] at hmem
      cases hmem
    · rfl
  unfold find_matches
  rw [if_pos hne]

/-- Claim C1: every resolve call's matches share a single strategy tier;
the cascade stops at the first non-empty tier, so when an exact match
exists only exact matches (names equal to the input) are returned and
tiers are never mixed. -/
theorem find_matches_single_tier {α : Type} (env : FuzzyEnv) (cfg : ResolverCfg)
    (ui : String) (cands : List α) (ne : α → String)
    (hui : ui ≠ "") (hc : cands ≠ []) :
    (∀ m₁ ∈ find_matches env cfg ui cands ne, ∀ m₂ ∈ find_matches env cfg ui cands ne,
        m₁.strategy = m₂.strategy)
    ∧ ((∃ c ∈ cands, ne c = ui) →
        ∀ m ∈ find_matches env cfg ui cands ne,
          m.strategy = MatchStrategy.exact ∧ m.name = ui) := by
  constructor
  · obtain ⟨st, hst⟩ := find_matches_uniform env cfg ui cands ne
    intro m₁ h₁ m₂ h₂
    rw [hst m₁ h₁, hst m₂ h₂]
  · intro hex m hm
    rw [find_matches_exact_of_exists env cfg ui cands ne hex] at hm
    have h := exact_matches_spec hm
    exact ⟨h.1, h.2.2⟩

theorem find_matches_single_tier_witness :
    (Match.mk "Owner" "Owner" MatchStrategy.exact 1).strategy = MatchStrategy.exact ∧
    (Match.mk "Owner" "Owner" MatchStrategy.exact 1).name = "Owner" :=
  (find_matches_single_tier envRapid0 cfgNonTty "Owner" ["Owner", "Contributor"] id
      (by decide) (by decide)).2
    ⟨"Owner", by decide, rfl⟩
    (Match.mk "Owner" "Owner" MatchStrategy.exact 1) (by decide)



/-- Claim C2: the guard clauses of `resolve` — empty candidates yield
absent with the "No {context}s available" diagnostic, and empty input
with non-empty candidates yields absent with the "{context} input is
required" diagnostic, in both cases before the match engine runs (the
result is the same for every name extractor, similarity backend and
input stream, and no other diagnostic is produced). -/
theorem resolve_guard_clauses {α : Type} (env : FuzzyEnv) (cfg : ResolverCfg)
    (stdin : List InEvent) (ui context : String) (cands : List α) (ne : α → String)
    (allow : Bool) :
    (cands = [] →
      resolve env cfg stdin ui cands ne context allow
        = (none, [Diag.error ("No " ++ context ++ "s available to match against")]))
    ∧ (cands ≠ [] →
      resolve env cfg stdin "" cands ne context allow
        = (none, [Diag.error (pyCapitalize context ++ " input is required")])) := by
  constructor
  · rintro rfl
    rfl
  · intro hc
    have hemp : cands.isEmpty = false := by
      cases cands
      · exact absurd rfl hc
      · rfl
    simp [resolve, hemp]

theorem resolve_guard_clauses_witness :
    resolve envRapid0 cfgNonTty [] "Owner" ([] : List String) id "role" true
      = (none, [Diag.error ("No " ++ "role" ++ "s available to match against")]) ∧
    resolve envRapid0 cfgNonTty [] "" ["Owner"] id "role" true
      = (none, [Diag.error (pyCapitalize "role" ++ " input is required")]) :=
  ⟨(resolve_guard_clauses envRapid0 cfgNonTty [] "Owner" "role" ([] : List String) id true).1
      rfl,
   (resolve_guard_clauses envRapid0 cfgNonTty [] "x" "role" ["Owner"] id true).2
      (by decide)⟩

theorem cacheLookup_erase {α : Type} (c : Cache α) (key : String) :
    cacheLookup (cacheErase c key) key = none := by
  unfold cacheLookup cacheErase
  rw [Option.map_eq_none']
  rw [List.find?_eq_none]
  intro p hp
  have h := (List.mem_filter.mp hp).2
  simp at h
  simp [h]

theorem cacheLookup_insert {α : Type} (c : Cache α) (key : String) (e : CacheEntry α) :
    cacheLookup (cacheInsert c key e) key = some e := by
  induction c with
  | nil => simp [cacheInsert, cacheLookup, List.find?]
  | cons p rest ih =>
    rcases p with ⟨k, e0⟩
    by_cases h : k == key
    · simp only [cacheInsert, h, if_true]
      simp only [cacheLookup, List.find?]
      rw [h]
      rfl
    · simp only [cacheInsert, h, Bool.false_eq_true, if_false]
      simp only [cacheLookup, List.find?] at ih ⊢
      rw [Bool.not_eq_true] at h
      rw [h]
      exact ih

/-- Claim C3: the cache contract — `get_cached` returns the stored data
exactly when an entry exists and `now - timestamp <= ttl`; a stale entry
is deleted; `set_cache` overwrites under the key with the given
timestamp; `clear_cache` removes everything. -/
theorem cache_ttl_contract {α : Type} (c : Cache α) (ttl now now2 : Rat)
    (key : String) (d : α) :
    ((get_cached c ttl now key).1 = some d ↔
      ∃ e, cacheLookup c key = some e ∧ now - e.timestamp ≤ ttl ∧ e.data = d)
    ∧ (∀ e, cacheLookup c key = some e → ttl < now - e.timestamp →
        (get_cached c ttl now key).1 = none ∧
        cacheLookup (get_cached c ttl now key).2 key = none)
    ∧ cacheLookup (set_cache c now2 key d) key = some (CacheEntry.mk d now2)
    ∧ (∀ k2, cacheLookup (clear_cache c) k2 = none) := by
  refine ⟨?_, ?_, cacheLookup_insert c key (CacheEntry.mk d now2), fun k2 => rfl⟩
  · cases hl : cacheLookup c key with
    | none =>
      simp [get_cached, hl]
    | some e =>
      simp only [get_cached, hl]
      by_cases hstale : ttl < ratSub now e.timestamp
      · rw [if_pos hstale]
        rw [ratSub_eq] at hstale
        simp only [hl, Option.some.injEq]
        constructor
        · intro hcontra
          cases hcontra
        · rintro ⟨e', he', hle, hd⟩
          subst he'
          exact absurd hle (not_le.mpr hstale)
      · rw [if_neg hstale]
        rw [ratSub_eq] at hstale
        simp only [hl, Option.some.injEq]
        constructor
        · intro hd
          exact ⟨e, rfl, not_lt.mp hstale, hd⟩
        · rintro ⟨e', he', hle, hd⟩
          subst he'
          exact hd
  · intro e he hstale
    have hs2 : ttl < ratSub now e.timestamp := by
      rw [ratSub_eq]
      exact hstale
    constructor
    · simp [get_cached, he, hs2]
    · simp only [get_cached, he, hs2, if_pos]
      exact cacheLookup_erase c key

theorem cache_ttl_contract_witness :
    (get_cached (set_cache ([] : Cache Nat) 0 "k" 5) 300 100 "k").1 = some 5 :=
  (cache_ttl_contract (set_cache ([] : Cache Nat) 0 "k" 5) 300 100 0 "k" 5).1.mpr
    ⟨CacheEntry.mk 5 0, by decide, by norm_num, rfl⟩

/-! ## Claims C5, C6, C7, C8 -/

/-- Claim C5: with two or more matches and interactive selection
unavailable (no TTY or disallowed), `resolve` selects nothing and emits
the multiple-matches diagnostic showing at most 5 names plus an overflow
count when more than 5 matched. -/
theorem multiple_matches_non_interactive {α : Type} (env : FuzzyEnv) (cfg : ResolverCfg)
    (stdin : List InEvent) (ui context : String) (cands : List α) (ne : α → String)
    (allow : Bool) (ms : List (Match α))
    (hc : cands ≠ []) (hui : ui ≠ "")
    (hfm : find_matches env cfg ui cands ne = ms) (hlen : 2 ≤ ms.length)
    (hmode : cfg.is_tty = false ∨ allow = false) :
    resolve env cfg stdin ui cands ne context allow
      = (none, [Diag.multipleMatches context ui ((ms.take 5).map (fun m => m.name))
          (if 5 < ms.length then some (ms.length - 5) else none)])
    ∧ ((ms.take 5).map (fun m => m.name)).length ≤ 5 := by
  have hemp : cands.isEmpty = false := by
    cases cands
    · exact absurd rfl hc
    · rfl
  constructor
  · match ms, hlen with
    | a :: b :: rest, _ =>
      have hmodeb : (cfg.is_tty && allow) = false := by
        rcases hmode with h | h <;> simp [h]
      simp only [resolve, hemp, Bool.false_eq_true, if_false, if_neg hui, hfm]
      simp only [handle_multiple_matches, hmodeb, Bool.false_eq_true, if_false]
  · rw [List.length_map]
    exact List.length_take_le 5 ms

theorem multiple_matches_non_interactive_witness :
    resolve envRapid0 cfgNonTty [] "Security"
        ["Security Administrator", "Security Reader"] id "role" true
      = (none, [Diag.multipleMatches "role" "Security"
          ["Security Administrator", "Security Reader"] none]) :=
  ((multiple_matches_non_interactive envRapid0 cfgNonTty [] "Security" "role"
      ["Security Administrator", "Security Reader"] id true
      [Match.mk "Security Administrator" "Security Administrator" MatchStrategy.prefixOf
          (mkRat 9 10),
        Match.mk "Security Reader" "Security Reader" MatchStrategy.prefixOf (mkRat 9 10)]
      (by decide) (by decide) (by decide) (by decide)
      (Or.inl rfl)).1).trans (by decide)



/-- Counterexample to claim C6: during interactive disambiguation an
*empty* selection does not cancel — `Prompt.ask` substitutes the default
`"1"` and `resolve` returns the first match's item instead of absent. -/
theorem interactive_empty_selects_default_cex :
    (resolve envRapid0 cfgTty [InEvent.line ""] "Security"
        ["Security Administrator", "Security Reader"] id "role" true).1
      = some "Security Administrator" := by decide

/-- Claim C6 as amended: with two or more matches in an interactive TTY,
a keyboard interrupt or end-of-input during the prompt yields the
cancelled outcome (absent, nothing selected); an *empty* selection takes
the default and selects the first match; an *invalid* selection is
re-prompted by the prompt library (consuming further input) rather than
failing or selecting. -/
theorem interactive_selection_outcomes {α : Type} (env : FuzzyEnv) (cfg : ResolverCfg)
    (ui context : String) (cands : List α) (ne : α → String)
    (m m2 : Match α) (ms : List (Match α)) (rest : List InEvent)
    (hc : cands ≠ []) (hui : ui ≠ "") (htty : cfg.is_tty = true)
    (hfm : find_matches env cfg ui cands ne = m :: m2 :: ms) :
    (resolve env cfg (InEvent.interrupt :: rest) ui cands ne context true
      = (none, [Diag.promptList context ((m :: m2 :: ms).map (fun x => x.name)),
          Diag.cancelled]))
    ∧ (resolve env cfg [] ui cands ne context true
      = (none, [Diag.promptList context ((m :: m2 :: ms).map (fun x => x.name)),
          Diag.cancelled]))
    ∧ ((resolve env cfg (InEvent.line "" :: rest) ui cands ne context true).1
      = some m.item)
    ∧ (∀ s, s ≠ "" →
        (((List.range (m :: m2 :: ms).length).map (fun i => toString (i + 1))).contains s
          = false) →
        resolve env cfg (InEvent.line s :: rest) ui cands ne context true
          = resolve env cfg rest ui cands ne context true) := by
  have hemp : cands.isEmpty = false := by
    cases cands
    · exact absurd rfl hc
    · rfl
  have h1 : pyInt "1" = some 1 := by decide
  refine ⟨?_, ?_, ?_, ?_⟩
  · simp only [resolve, hemp, Bool.false_eq_true, if_false, if_neg hui, hfm]
    simp only [handle_multiple_matches, htty, Bool.true_and, if_pos]
    simp [interactive_select, promptAsk]
  · simp only [resolve, hemp, Bool.false_eq_true, if_false, if_neg hui, hfm]
    simp only [handle_multiple_matches, htty, Bool.true_and, if_pos]
    simp [interactive_select, promptAsk]
  · simp only [resolve, hemp, Bool.false_eq_true, if_false, if_neg hui, hfm]
    simp only [handle_multiple_matches, htty, Bool.true_and, if_pos]
    simp [interactive_select, promptAsk, h1]
  · intro s hs hmem
    simp only [resolve, hemp, Bool.false_eq_true, if_false, if_neg hui, hfm]
    simp only [handle_multiple_matches, htty, Bool.true_and, if_pos]
    simp only [interactive_select, promptAsk, if_neg hs, hmem, Bool.false_eq_true, if_false]

theorem interactive_selection_outcomes_witness :
    resolve envRapid0 cfgTty [InEvent.interrupt] "Security"
        ["Security Administrator", "Security Reader"] id "role" true
      = (none, [Diag.promptList "role" ["Security Administrator", "Security Reader"],
          Diag.cancelled]) :=
  ((interactive_selection_outcomes envRapid0 cfgTty "Security" "role"
      ["Security Administrator", "Security Reader"] id
      (Match.mk "Security Administrator" "Security Administrator" MatchStrategy.prefixOf
        (mkRat 9 10))
      (Match.mk "Security Reader" "Security Reader" MatchStrategy.prefixOf (mkRat 9 10))
      [] []
      (by decide) (by decide) rfl (by decide)).1).trans (by decide)



/-- Counterexample to claim C7: with two distinct candidates sharing the
extracted name "Owner", the fuzzy tier's name-keyed dict maps both
matches to the *last* candidate, so interactively choosing option 1 —
the match produced by candidate `(1, "Owner")` — returns `(2, "Owner")`
instead of the candidate that produced the match. -/
theorem fuzzy_duplicate_name_item_cex :
    ((find_matches envRapid90 cfgTty "Ownr" [((1 : Nat), "Owner"), (2, "Owner")]
        (fun p => p.2)).map (fun m => m.item) = [(2, "Owner"), (2, "Owner")])
    ∧ (resolve envRapid90 cfgTty [InEvent.line "1"] "Ownr"
        [((1 : Nat), "Owner"), (2, "Owner")] (fun p => p.2) "role" true).1
      = some (2, "Owner")
    ∧ ((2 : Nat), "Owner") ≠ ((1 : Nat), "Owner") := by
  refine ⟨by decide, by decide, by decide⟩

/-- Claim C7 as amended: a cleanly made interactive selection returns the
underlying item of the chosen match, and every match's item is a
candidate from the input list whose extracted name equals the match's
name — but in the fuzzy tier that item is re-derived through a name-keyed
dict, so among duplicate-named candidates it is the *last* candidate with
that name rather than the one that produced the match. -/
theorem selection_item_consistency {α : Type} (env : FuzzyEnv) (cfg : ResolverCfg)
    (ui context : String) (cands : List α) (ne : α → String)
    (s : String) (rest : List InEvent) (n : Int) (ms : List (Match α))
    (hc : cands ≠ []) (hui : ui ≠ "") (htty : cfg.is_tty = true)
    (hfm : find_matches env cfg ui cands ne = ms) (hlen : 2 ≤ ms.length)
    (hmem : ((List.range ms.length).map (fun i => toString (i + 1))).contains s = true)
    (hs : s ≠ "") (hn : pyInt s = some n) (h1 : 1 ≤ n) (h2 : n ≤ (ms.length : Int)) :
    ∃ m, ms.get? (n - 1).toNat = some m
      ∧ (resolve env cfg (InEvent.line s :: rest) ui cands ne context true).1
          = some m.item
      ∧ m.item ∈ cands ∧ ne m.item = m.name := by
  have hemp : cands.isEmpty = false := by
    cases cands
    · exact absurd rfl hc
    · rfl
  have hlt : (n - 1).toNat < ms.length := by omega
  have hget := List.get?_eq_get hlt
  refine ⟨ms.get ⟨(n - 1).toNat, hlt⟩, hget, ?_, ?_, ?_⟩
  · match ms, hfm, hlen, hmem, hlt, hget with
    | a :: b :: t, hfm, _, hmem, hlt, hget =>
      simp only [resolve, hemp, Bool.false_eq_true, if_false, if_neg hui, hfm]
      simp only [handle_multiple_matches, htty, Bool.true_and, if_pos]
      simp only [interactive_select, promptAsk, if_neg hs, hmem, if_true]
      rw [hn]
      simp only [Option.getD_some, hget, Option.map_some']
  · have hm := find_matches_item_name env cfg ui cands ne
    rw [hfm] at hm
    exact (hm _ (List.get_mem ms _ _)).1
  · have hm := find_matches_item_name env cfg ui cands ne
    rw [hfm] at hm
    exact (hm _ (List.get_mem ms _ _)).2

theorem selection_item_consistency_witness :
    ∃ m, [Match.mk "Security Administrator" "Security Administrator"
            MatchStrategy.prefixOf (mkRat 9 10),
          Match.mk "Security Reader" "Security Reader" MatchStrategy.prefixOf
            (mkRat 9 10)].get? (((2 : Int) - 1).toNat) = some m
      ∧ (resolve envRapid0 cfgTty [InEvent.line "2"] "Security"
          ["Security Administrator", "Security Reader"] id "role" true).1 = some m.item
      ∧ m.item ∈ ["Security Administrator", "Security Reader"]
      ∧ id m.item = m.name :=
  selection_item_consistency envRapid0 cfgTty "Security" "role"
    ["Security Administrator", "Security Reader"] id "2" [] 2
    [Match.mk "Security Administrator" "Security Administrator" MatchStrategy.prefixOf
      (mkRat 9 10),
     Match.mk "Security Reader" "Security Reader" MatchStrategy.prefixOf (mkRat 9 10)]
    (by decide) (by decide) rfl (by decide) (by decide) (by decide) (by decide)
    (by decide) (by decide) (by decide)



/-- Counterexample to claim C8: with the rapidfuzz backend the "Did you
mean" suggestions have *no* similarity cutoff — `process.extract` with
`limit=3` keeps the 3 best-scoring names unconditionally.  A scorer
rating every pair 0 (as `fuzz.ratio` does for strings with no common
characters) still yields suggestions, although 0 is far below the 0.4
cutoff the claim requires. -/
theorem suggestions_no_cutoff_rapidfuzz_cex :
    (resolve envRapid0 cfgNonTty [] "XYZ" ["Owner", "Contributor", "Reader"] id "role"
        true).2
      = [Diag.notFound "role" "XYZ" ["Owner", "Contributor", "Reader"]]
    ∧ div100 (envRapid0.fuzzScore "XYZ" "Owner") < mkRat 2 5 :=
  ⟨by decide, by decide⟩

/-- Claim C8 as amended: zero matches yield absent plus a not-found
diagnostic whose suggestions are computed fresh against the full
candidate set (independently of `fuzzy_enabled`), at most 3 of them; with
the difflib fallback a fixed 0.4 similarity cutoff applies, while the
rapidfuzz backend takes the 3 best-scoring names with no cutoff. -/
theorem no_match_suggestions {α : Type} (env : FuzzyEnv) (cfg : ResolverCfg)
    (stdin : List InEvent) (ui context : String) (cands : List α) (ne : α → String)
    (allow : Bool)
    (hc : cands ≠ []) (hui : ui ≠ "") (hfm : find_matches env cfg ui cands ne = []) :
    resolve env cfg stdin ui cands ne context allow
      = (none, [Diag.notFound context ui (get_suggestions env ui cands ne 3)])
    ∧ (get_suggestions env ui cands ne 3).length ≤ 3
    ∧ (env.hasRapidfuzz = false →
        ∀ s ∈ get_suggestions env ui cands ne 3, mkRat 2 5 ≤ env.smScore s ui) := by
  have hemp : cands.isEmpty = false := by
    cases cands
    · exact absurd rfl hc
    · rfl
  refine ⟨?_, ?_, ?_⟩
  · simp only [resolve, hemp, Bool.false_eq_true, if_false, if_neg hui, hfm]
  · unfold get_suggestions
    split
    · rw [List.length_map]
      unfold rfExtract
      exact List.length_take_le 3 _
    · unfold get_close_matches
      rw [List.length_map]
      exact List.length_take_le 3 _
  · intro hdl s hmem
    rw [get_suggestions, if_neg (by rw [hdl]; exact Bool.false_ne_true)] at hmem
    unfold get_close_matches at hmem
    rcases List.mem_map.mp hmem with ⟨p, hp, rfl⟩
    have hp2 : p ∈ sortByGt pyPairGt _ := List.take_subset 3 _ hp
    have hp3 := mem_sortByGt.mp hp2
    rcases List.mem_map.mp hp3 with ⟨x, hx, rfl⟩
    have := (List.mem_filter.mp hx).2
    simpa using this

theorem no_match_suggestions_witness :
    resolve envDifflib50 cfgNonTty [] "XYZ" ["Owner"] id "role" true
      = (none, [Diag.notFound "role" "XYZ" (get_suggestions envDifflib50 "XYZ" ["Owner"]
          id 3)]) :=
  (no_match_suggestions envDifflib50 cfgNonTty [] "XYZ" "role" ["Owner"] id true
    (by decide) (by decide) (by decide)).1

/-! ## Claim C4 -/
theorem length_insertByGt {β : Type} (gt : β → β → Bool) (x : β) (l : List β) :
    (insertByGt gt x l).length = l.length + 1 := by
  induction l with
  | nil => rfl
  | cons y ys ih =>
    unfold insertByGt
    split
    · simp [ih]
    · simp

theorem length_sortByGt {β : Type} (gt : β → β → Bool) (l : List β) :
    (sortByGt gt l).length = l.length := by
  induction l with
  | nil => rfl
  | cons x xs ih =>
    unfold sortByGt
    rw [length_insertByGt, ih, List.length_cons]

theorem map_sortByKeyDesc {β γ : Type} (f : β → γ) (k : β → Rat) (k2 : γ → Rat)
    (hc : ∀ a b, (k b < k a ↔ k2 (f b) < k2 (f a))) (l : List β) :
    (sortByKeyDesc k l).map f = sortByKeyDesc k2 (l.map f) :=
  map_sortByGt f (keyGt k) (keyGt k2)
    (fun a b => by
      simp only [keyGt]
      exact decide_eq_decide.mpr (hc a b)) l

theorem rescale_filter (θ : Rat) (l : List (String × Rat)) :
    (l.filter (fun r => decide (θ ≤ div100 r.2))).map
        (fun r : String × Rat => (r.1, div100 r.2))
      = (l.map (fun r : String × Rat => (r.1, div100 r.2))).filter
          (fun p => decide (θ ≤ p.2)) := by
  induction l with
  | nil => rfl
  | cons r rs ih =>
    simp only [List.filter_cons, List.map_cons]
    by_cases h : decide (θ ≤ div100 r.2) = true
    · simp only [h, if_true, List.map_cons, ih]
    · simp only [h, Bool.false_eq_true, if_false, ih]

theorem fuzzy_pairs_of_filterMap {α : Type} (θ : Rat) (cns : List (α × String))
    (rs : List (String × Rat)) (hsub : ∀ r ∈ rs, ∃ p ∈ cns, p.2 = r.1) :
    (rs.filterMap (fun r =>
        if decide (θ ≤ div100 r.2) then
          (name_to_candidate cns r.1).map
            (fun c => Match.mk c r.1 MatchStrategy.fuzzy (div100 r.2))
        else none)).map (fun m => (m.name, m.score))
      = (rs.filter (fun r => decide (θ ≤ div100 r.2))).map
          (fun r => (r.1, div100 r.2)) := by
  induction rs with
  | nil => rfl
  | cons r rs ih =>
    have hr := hsub r (List.mem_cons_self r rs)
    have hsome := name_to_candidate_isSome hr
    rcases Option.isSome_iff_exists.mp hsome with ⟨c, hc⟩
    have ih2 := ih (fun r2 h2 => hsub r2 (List.mem_cons_of_mem r h2))
    rw [List.filterMap_cons, List.filter_cons]
    by_cases hθ : decide (θ ≤ div100 r.2) = true
    · rw [if_pos hθ, if_pos hθ, hc]
      simp only [Option.map_some', List.map_cons, ih2]
    · rw [if_neg hθ, if_neg hθ]
      exact ih2

/-- Counterexample to claim C4: with the difflib fallback, tied fuzzy
scores are *not* kept in original candidate order — `heapq.nlargest`
compares `(ratio, name)` tuples, breaking ties by name descending.  Both
"A" and "B" score 0.9 against "x" (threshold 0.8), but the tier returns
"B" before "A", while the claim's filter-then-stable-sort prediction is
"A" before "B". -/
theorem fuzzy_tier_difflib_order_cex :
    (fuzzy_match envDifflib90 (mkRat 8 10) "x" [((1 : Nat), "A"), (2, "B")]).map
        (fun m => (m.name, m.score))
      = [("B", mkRat 9 10), ("A", mkRat 9 10)]
    ∧ fuzzy_tier_spec (fun n => envDifflib90.smScore "x" n) (mkRat 8 10) ["A", "B"]
      = [("A", mkRat 9 10), ("B", mkRat 9 10)]
    ∧ ([("B", mkRat 9 10), ("A", mkRat 9 10)] : List (String × Rat))
      ≠ [("A", mkRat 9 10), ("B", mkRat 9 10)] :=
  ⟨by decide, by decide, by decide⟩

/-- Claim C4 as amended: with the rapidfuzz backend, the fuzzy tier's
`(name, score)` pairs are exactly the candidates scoring at or above the
threshold (a score equal to the threshold is included), sorted by score
descending with ties kept stably in original candidate order; with the
difflib fallback at most 10 matches are ever produced (and tie order
follows descending `(score, name)` tuple order, not candidate order — see
the counterexample). -/
theorem fuzzy_tier_rapidfuzz_spec {α : Type} (env : FuzzyEnv) (θ : Rat) (ui : String)
    (cns : List (α × String)) :
    (env.hasRapidfuzz = true →
      ((fuzzy_match env θ ui cns).map (fun m => (m.name, m.score))
        = fuzzy_tier_spec (fun n => div100 (env.fuzzScore ui n)) θ
            (cns.map (fun p => p.2)))
      ∧ (∀ nm ∈ cns.map (fun p => p.2),
          ((nm, div100 (env.fuzzScore ui nm)) ∈
              (fuzzy_match env θ ui cns).map (fun m => (m.name, m.score))
            ↔ θ ≤ div100 (env.fuzzScore ui nm))))
    ∧ (env.hasRapidfuzz = false → (fuzzy_match env θ ui cns).length ≤ 10) := by
  constructor
  · intro hrf
    have hmain : (fuzzy_match env θ ui cns).map (fun m => (m.name, m.score))
        = fuzzy_tier_spec (fun n => div100 (env.fuzzScore ui n)) θ
            (cns.map (fun p => p.2)) := by
      unfold fuzzy_match
      rw [if_pos hrf]
      rw [map_sortByKeyDesc (fun m : Match α => (m.name, m.score))
        (fun m => m.score) (fun p => p.2) (fun a b => Iff.rfl)]
      rw [fuzzy_pairs_of_filterMap θ cns _ ?hsub]
      case hsub =>
        intro r hr
        unfold rfExtract at hr
        have hmm := mem_sortByGt.mp hr
        rcases List.mem_map.mp hmm with ⟨nm, hnm, rfl⟩
        rcases List.mem_map.mp hnm with ⟨p, hp, rfl⟩
        exact ⟨p, hp, rfl⟩
      unfold rfExtract
      rw [filter_sortByKeyDesc (fun p : String × Rat => p.2)
        (fun r => decide (θ ≤ div100 r.2))]
      rw [map_sortByKeyDesc (fun r : String × Rat => (r.1, div100 r.2))
        (fun p => p.2) (fun p => p.2) (fun a b => div100_lt_div100.symm)]
      rw [rescale_filter, List.map_map]
      unfold fuzzy_tier_spec
      show sortByKeyDesc _ (sortByKeyDesc _ _) = _
      rw [sortByKeyDesc_idem]
      rfl
    refine ⟨hmain, ?_⟩
    intro nm hnm
    rw [hmain]
    unfold fuzzy_tier_spec
    show (nm, div100 (env.fuzzScore ui nm)) ∈ sortByGt _ _ ↔ _
    rw [mem_sortByGt]
    constructor
    · intro h
      have h2 := (List.mem_filter.mp h).2
      simpa using h2
    · intro h
      apply List.mem_filter.mpr
      refine ⟨List.mem_map.mpr ⟨nm, hnm, rfl⟩, by simpa using h⟩
  · intro hdl
    unfold fuzzy_match
    rw [if_neg (by rw [hdl]; exact Bool.false_ne_true)]
    show (sortByGt _ _).length ≤ 10
    rw [length_sortByGt]
    calc (List.filterMap _ (get_close_matches env.smScore ui
            (cns.map (fun p => p.2)) 10 θ)).length
        ≤ (get_close_matches env.smScore ui (cns.map (fun p => p.2)) 10 θ).length :=
          List.length_filterMap_le _ _
      _ ≤ 10 := by
          unfold get_close_matches
          rw [List.length_map]
          exact List.length_take_le 10 _

theorem fuzzy_tier_rapidfuzz_spec_witness :
    (fuzzy_match envRapid90 (mkRat 8 10) "Ownr"
        [((1 : Nat), "Owner"), (2, "Reader")]).map (fun m => (m.name, m.score))
      = fuzzy_tier_spec (fun n => div100 (envRapid90.fuzzScore "Ownr" n)) (mkRat 8 10)
          ([((1 : Nat), "Owner"), (2, "Reader")].map (fun p => p.2)) :=
  ((fuzzy_tier_rapidfuzz_spec envRapid90 (mkRat 8 10) "Ownr"
    [((1 : Nat), "Owner"), (2, "Reader")]).1 rfl).1

/-! ## Claim C9 -/
theorem digit_not_space {c : Char} (h : isAsciiDigit c = true) : pySpace c = false := by
  simp only [isAsciiDigit, Bool.and_eq_true, decide_eq_true_eq] at h
  simp only [pySpace, Bool.or_eq_false_iff, decide_eq_false_iff_not]
  omega

theorem digit_ne_sign {c : Char} (h : isAsciiDigit c = true) : c ≠ '+' ∧ c ≠ '-' := by
  simp only [isAsciiDigit, Bool.and_eq_true, decide_eq_true_eq] at h
  constructor
  · intro hc
    rw [hc] at h
    simp at h
  · intro hc
    rw [hc] at h
    simp at h

theorem parseDigitsLoop_digits (l : List Char) :
    ∀ (acc : Nat) (b : Bool), (∀ c ∈ l, isAsciiDigit c = true) → (l = [] → b = true) →
    ∃ m : Nat, parseDigitsLoop l acc b = some m := by
  induction l with
  | nil =>
    intro acc b _ hb
    exact ⟨acc, by simp [parseDigitsLoop, hb rfl]⟩
  | cons c cs ih =>
    intro acc b hd _
    have hc := hd c (List.mem_cons_self c cs)
    unfold parseDigitsLoop
    rw [if_pos hc]
    exact ih _ true (fun x hx => hd x (List.mem_cons_of_mem c hx)) (fun _ => rfl)

theorem dropWhile_digits {l : List Char} (hd : ∀ c ∈ l, isAsciiDigit c = true) :
    l.dropWhile pySpace = l := by
  cases l with
  | nil => rfl
  | cons c cs =>
    rw [List.dropWhile_cons]
    rw [digit_not_space (hd c (List.mem_cons_self c cs))]
    simp

theorem pyInt_of_isdigit {t : String} (h : pyIsdigit t = true) :
    ∃ m : Nat, pyInt t = some (m : Int) := by
  simp only [pyIsdigit, Bool.and_eq_true] at h
  rcases h with ⟨hne, hall⟩
  have hd : ∀ c ∈ t.data, isAsciiDigit c = true := by
    intro c hc
    exact List.all_eq_true.mp hall c hc
  have hrev : ∀ c ∈ t.data.reverse, isAsciiDigit c = true :=
    fun c hc => hd c (List.mem_reverse.mp hc)
  have h1 : t.data.dropWhile pySpace = t.data := dropWhile_digits hd
  have h2 : t.data.reverse.dropWhile pySpace = t.data.reverse := dropWhile_digits hrev
  unfold pyInt
  rw [h1, h2, List.reverse_reverse]
  cases ht : t.data with
  | nil =>
    rw [ht] at hne
    simp at hne
  | cons c cs =>
    rw [ht] at hd
    have hc := hd c (List.mem_cons_self c cs)
    have hsign := digit_ne_sign hc
    rcases parseDigitsLoop_digits (c :: cs) 0 false hd (fun hcontra => by cases hcontra)
      with ⟨m, hm⟩
    refine ⟨m, ?_⟩
    simp only [if_neg hsign.1, if_neg hsign.2, hm]
    rfl

theorem role_number_of_pattern {s : String} (h : posPattern s = true) :
    ∃ n : Int, role_number_of s = some n ∧ 0 ≤ n := by
  unfold posPattern at h
  unfold role_number_of
  by_cases hs : pyStartsWith s "#" = true
  · rw [if_pos hs] at h ⊢
    rcases pyInt_of_isdigit h with ⟨m, hm⟩
    exact ⟨(m : Int), hm, Int.natCast_nonneg m⟩
  · rw [if_neg hs] at h
    rw [if_neg hs, if_pos h]
    rcases pyInt_of_isdigit h with ⟨m, hm⟩
    exact ⟨(m : Int), hm, Int.natCast_nonneg m⟩

/-- Counterexample to claim C9: `"#-3"` does not match `^#?\d+$`, so by
the claim it should fall through to name resolution (which, against a
role literally named "#-3", finds an exact match) — but the code parses
`int("-3")` successfully, takes the positional path, prints the
invalid-number diagnostic and resolves nothing. -/
theorem positional_pattern_mismatch_cex :
    posPattern "#-3" = false
    ∧ (resolve_role envRapid0 cfgNonTty [] [] 0 "#-3" "/sub" ["#-3"] id).result = none
    ∧ (resolve_role envRapid0 cfgNonTty [] [] 0 "#-3" "/sub" ["#-3"] id).diags
        = [Diag.error ("Invalid role number -3 (must be 1-1)")]
    ∧ (resolve envRapid0 cfgNonTty [] "#-3" ["#-3"] id "role" true).1 = some "#-3" :=
  ⟨by decide, by decide, by decide, by decide⟩

/-- Claim C9 as amended: every token matching `^#?\d+$` takes the
positional path (1-indexed into the cached-or-fetched ordered list,
returning the Nth item in range and the "Invalid role number ...
(must be 1-N)" diagnostic with an absent result out of range), and the
positional path never invokes fuzzy matching (its outcome is independent
of the similarity backend and the interactive input); however the
positional path is slightly broader than the pattern — any token whose
text after a leading `#` parses as a Python integer (e.g. `"#-3"`) also
takes it — and only tokens rejected by `int()` fall through to name
resolution. -/
theorem positional_addressing {ρ : Type} (env env' : FuzzyEnv) (cfg : ResolverCfg)
    (stdin stdin' : List InEvent) (cache : Cache (List ρ)) (now : Rat)
    (role_input scope : String) (fetch_roles : List ρ) (ne : ρ → String) :
    (posPattern role_input = true →
      ∃ n : Int, role_number_of role_input = some n ∧ 0 ≤ n)
    ∧ (∀ n : Int, role_number_of role_input = some n →
        resolve_role env cfg stdin cache now role_input scope fetch_roles ne
          = resolve_role env' cfg stdin' cache now role_input scope fetch_roles ne
        ∧ (1 ≤ n → n ≤ ((roles_used cfg cache now scope fetch_roles).length : Int) →
            (resolve_role env cfg stdin cache now role_input scope fetch_roles ne).result
              = (roles_used cfg cache now scope fetch_roles).get? (n - 1).toNat
            ∧ (resolve_role env cfg stdin cache now role_input scope fetch_roles
                ne).diags = [])
        ∧ (¬ (1 ≤ n ∧ n ≤ ((roles_used cfg cache now scope fetch_roles).length : Int)) →
            (resolve_role env cfg stdin cache now role_input scope fetch_roles ne).result
              = none
            ∧ (resolve_role env cfg stdin cache now role_input scope fetch_roles ne).diags
              = [Diag.error ("Invalid role number " ++ toString n ++ " (must be 1-"
                  ++ toString (roles_used cfg cache now scope fetch_roles).length
                  ++ ")")]))
    ∧ (role_number_of role_input = none →
        (resolve_role env cfg stdin cache now role_input scope fetch_roles ne).result
          = (resolve env cfg stdin role_input (roles_used cfg cache now scope fetch_roles)
              ne "role" true).1) := by
  refine ⟨role_number_of_pattern, ?_, ?_⟩
  · intro n hn
    refine ⟨?_, ?_, ?_⟩
    · simp only [resolve_role, hn]
    · intro h1 h2
      have hb : 1 ≤ n ∧ n ≤ ((roles_used cfg cache now scope fetch_roles).length : Int) :=
        ⟨h1, h2⟩
      simp only [resolve_role, hn, roles_used] at hb ⊢
      rw [if_pos hb]
      exact ⟨rfl, rfl⟩
    · intro hb
      simp only [resolve_role, hn, roles_used] at hb ⊢
      rw [if_neg hb]
      exact ⟨rfl, rfl⟩
  · intro hn
    simp only [resolve_role, hn, roles_used]

theorem positional_addressing_witness :
    (resolve_role envRapid0 cfgNonTty [] [] 0 "#3" "/sub"
        ["alias1", "alias2", "remoteA", "remoteB"] id).result
      = (roles_used cfgNonTty [] 0 "/sub" ["alias1", "alias2", "remoteA", "remoteB"]).get?
          (((3 : Int) - 1).toNat) :=
  (((positional_addressing envRapid0 envRapid0 cfgNonTty [] [] [] 0 "#3" "/sub"
      ["alias1", "alias2", "remoteA", "remoteB"] id).2.1 3 (by decide)).2.1
    (by decide) (by decide)).1

/-! ## Claim C10 -/
/-- Claim C10: `resolve_scope` returns full paths (`/subscriptions/...`,
`/providers/...`) unchanged and maps case-insensitive "directory" or "/"
to "/", in all cases without invoking the fetch function, touching the
cache, or matching (the result is a pure function of the input, the cache
is returned unchanged, the fetched flag is false and nothing is printed);
with a subscription id and no fetch function, a slash-free 36-character
input containing "-" becomes `/subscriptions/<input>` and any other
slash-free input becomes
`/subscriptions/<subscription_id>/resourceGroups/<input>`. -/
theorem resolve_scope_shortcuts (env : FuzzyEnv) (cfg : ResolverCfg)
    (stdin : List InEvent) (cache : Cache (List ScopeVal)) (now : Rat)
    (scope_input : String) (sid : Option String)
    (fetch_scopes : Option (List ScopeVal)) :
    ((pyStartsWith scope_input "/subscriptions/" = true ∨
        pyStartsWith scope_input "/providers/" = true) →
      resolve_scope env cfg stdin cache now scope_input sid fetch_scopes
        = ScopeResolution.mk (some scope_input) [] cache false)
    ∧ (pyStartsWith scope_input "/subscriptions/" = false →
       pyStartsWith scope_input "/providers/" = false →
       (pyLower scope_input = "directory" ∨ pyLower scope_input = "/") →
      resolve_scope env cfg stdin cache now scope_input sid fetch_scopes
        = ScopeResolution.mk (some "/") [] cache false)
    ∧ (∀ s, sid = some s → s ≠ "" → fetch_scopes = none →
       pyStartsWith scope_input "/subscriptions/" = false →
       pyStartsWith scope_input "/providers/" = false →
       pyLower scope_input ≠ "directory" → pyLower scope_input ≠ "/" →
       pyContainsChar scope_input '/' = false →
      ((pyLen scope_input = 36 ∧ pyContainsChar scope_input '-' = true →
        resolve_scope env cfg stdin cache now scope_input sid fetch_scopes
          = ScopeResolution.mk (some ("/subscriptions/" ++ scope_input)) [] cache false)
       ∧ (¬ (pyLen scope_input = 36 ∧ pyContainsChar scope_input '-' = true) →
        resolve_scope env cfg stdin cache now scope_input sid fetch_scopes
          = ScopeResolution.mk
              (some ("/subscriptions/" ++ s ++ "/resourceGroups/" ++ scope_input))
              [] cache false))) := by
  refine ⟨?_, ?_, ?_⟩
  · intro h
    have hb : (pyStartsWith scope_input "/subscriptions/"
        || pyStartsWith scope_input "/providers/") = true := by
      rcases h with h | h <;> simp [h]
    simp only [resolve_scope, hb, if_true]
  · intro h1 h2 h3
    have hb : (pyStartsWith scope_input "/subscriptions/"
        || pyStartsWith scope_input "/providers/") = false := by
      simp [h1, h2]
    have hd : (pyLower scope_input == "directory" || pyLower scope_input == "/") = true := by
      rcases h3 with h | h <;> simp [h]
    simp only [resolve_scope, hb, Bool.false_eq_true, if_false, hd, if_true]
  · intro s hsid hs hfetch h1 h2 h3 h4 h5
    subst hsid
    subst hfetch
    have hb : (pyStartsWith scope_input "/subscriptions/"
        || pyStartsWith scope_input "/providers/") = false := by
      simp [h1, h2]
    have hd : (pyLower scope_input == "directory" || pyLower scope_input == "/") = false := by
      simp [h3, h4]
    have htr : pyTruthyStr (some s) = true := by
      simpa [pyTruthyStr] using hs
    have hsub : (pyTruthyStr (some s) && (none : Option (List ScopeVal)).isNone
        && !pyContainsChar scope_input '/') = true := by
      rw [htr, h5]
      rfl
    constructor
    · intro hg
      have hguid : (pyLen scope_input == 36 && pyContainsChar scope_input '-') = true := by
        rw [hg.2]
        simp [hg.1]
      simp only [resolve_scope, hb, Bool.false_eq_true, if_false, hd, hsub, if_true,
        hguid]
    · intro hg
      have hguid : (pyLen scope_input == 36 && pyContainsChar scope_input '-') = false := by
        by_cases hl : pyLen scope_input = 36
        · have hdash : pyContainsChar scope_input '-' = false := by
            cases hdc : pyContainsChar scope_input '-'
            · rfl
            · exact absurd ⟨hl, hdc⟩ hg
          rw [hdash]
          simp
        · have : (pyLen scope_input == 36) = false := by
            simpa using hl
          rw [this]
          simp
      simp only [resolve_scope, hb, Bool.false_eq_true, if_false, hd, hsub, if_true,
        hguid, Option.getD_some]

theorem resolve_scope_shortcuts_witness :
    resolve_scope envRapid0 cfgNonTty [] [] 0 "my-rg"
        (some "12345678-1234-1234-1234-123456789abc") none
      = ScopeResolution.mk
          (some ("/subscriptions/" ++ "12345678-1234-1234-1234-123456789abc"
            ++ "/resourceGroups/" ++ "my-rg"))
          [] [] false :=
  (((resolve_scope_shortcuts envRapid0 cfgNonTty [] [] 0 "my-rg"
      (some "12345678-1234-1234-1234-123456789abc") none).2.2
    "12345678-1234-1234-1234-123456789abc" rfl (by decide) rfl (by decide) (by decide)
    (by decide) (by decide) (by decide)).2 (by decide))

end AzPimCli
